import Mathlib

/-!
Verification development for the video-chat-room signaling coordinator.

The Python source keeps its mutable state in insertion-ordered dictionaries
(`dict`), here embedded as association lists (`List (String × α)`) with
first-match lookup, in-place replacement on assignment to an existing key,
append on assignment to a fresh key, and removal by key.  Each manager class
is embedded as a state structure plus pure state-passing functions following
the corresponding Python methods line by line.
-/

namespace VideoChat

/-! ## Association-list embedding of Python `dict` -/

/-- First-match lookup, `d.get(k)` / `d[k]`. -/
def lookupA {α : Type} : List (String × α) → String → Option α
  | [], _ => none
  | (k, v) :: rest, key => if k = key then some v else lookupA rest key

/-- Assignment `d[k] = v`: replace in place if the key is present
(Python dicts keep the original position), append otherwise. -/
def setA {α : Type} : List (String × α) → String → α → List (String × α)
  | [], key, v => [(key, v)]
  | (k, w) :: rest, key, v =>
    if k = key then (key, v) :: rest else (k, w) :: setA rest key v

/-- Deletion `del d[k]` (removes the entry with this key; a no-op when the
key is absent, used where the source guards the deletion itself). -/
def eraseA {α : Type} : List (String × α) → String → List (String × α)
  | [], _ => []
  | (k, w) :: rest, key => if k = key then rest else (k, w) :: eraseA rest key

/-- The keys of an association list are pairwise distinct (always true of a
Python dict; arbitrary association lists can violate it). -/
def keysNodup {α : Type} (l : List (String × α)) : Prop :=
  (l.map Prod.fst).Nodup

instance {α : Type} (l : List (String × α)) : Decidable (keysNodup l) := by
  unfold keysNodup; infer_instance

theorem lookupA_setA_self {α : Type} (l : List (String × α)) (k : String) (v : α) :
    lookupA (setA l k v) k = some v := by
  induction l with
  | nil => simp [setA, lookupA]
  | cons p rest ih =>
    rcases p with ⟨k1, w⟩
    by_cases h : k1 = k
    · subst h; simp [setA, lookupA]
    · simp [setA, h, lookupA, ih]

theorem lookupA_setA_ne {α : Type} (l : List (String × α)) (k k' : String) (v : α)
    (h : k' ≠ k) : lookupA (setA l k v) k' = lookupA l k' := by
  have h2 : ¬ (k = k') := fun e => h e.symm
  induction l with
  | nil => simp [setA, lookupA, h2]
  | cons p rest ih =>
    rcases p with ⟨k1, w⟩
    by_cases hk : k1 = k
    · subst hk; simp [setA, lookupA, h2]
    · simp [setA, hk, lookupA, ih]

theorem lookupA_eraseA_ne {α : Type} (l : List (String × α)) (k k' : String)
    (h : k' ≠ k) : lookupA (eraseA l k) k' = lookupA l k' := by
  induction l with
  | nil => simp [eraseA]
  | cons p rest ih =>
    rcases p with ⟨k1, w⟩
    by_cases hk : k1 = k
    · have h2 : ¬ (k1 = k') := fun e => h (e.symm.trans hk)
      rw [eraseA, if_pos hk, lookupA, if_neg h2]
    · simp [eraseA, hk, lookupA, ih]

theorem lookupA_mem {α : Type} {l : List (String × α)} {k : String} {v : α}
    (h : lookupA l k = some v) : (k, v) ∈ l := by
  induction l with
  | nil => simp [lookupA] at h
  | cons p rest ih =>
    rcases p with ⟨k1, w⟩
    by_cases hk : k1 = k
    · subst hk
      rw [lookupA, if_pos rfl] at h
      injection h with h
      subst h
      exact List.mem_cons_self _ _
    · rw [lookupA, if_neg hk] at h
      exact List.mem_cons_of_mem _ (ih h)

theorem mem_setA {α : Type} {l : List (String × α)} {k : String} {v : α} {p : String × α}
    (h : p ∈ setA l k v) : p ∈ l ∨ p = (k, v) := by
  induction l with
  | nil =>
    simp [setA] at h
    right; exact h
  | cons q rest ih =>
    rcases q with ⟨k1, w⟩
    by_cases hk : k1 = k
    · subst hk
      rw [setA, if_pos rfl] at h
      rcases List.mem_cons.1 h with h | h
      · right; exact h
      · left; exact List.mem_cons_of_mem _ h
    · rw [setA, if_neg hk] at h
      rcases List.mem_cons.1 h with h | h
      · left; rw [h]; exact List.mem_cons_self _ _
      · rcases ih h with h' | h'
        · left; exact List.mem_cons_of_mem _ h'
        · right; exact h'

theorem mem_eraseA {α : Type} {l : List (String × α)} {k : String} {p : String × α}
    (h : p ∈ eraseA l k) : p ∈ l := by
  induction l with
  | nil => simp [eraseA] at h
  | cons q rest ih =>
    rcases q with ⟨k1, w⟩
    by_cases hk : k1 = k
    · rw [eraseA, if_pos hk] at h
      exact List.mem_cons_of_mem _ h
    · rw [eraseA, if_neg hk] at h
      rcases List.mem_cons.1 h with h | h
      · rw [h]; exact List.mem_cons_self _ _
      · exact List.mem_cons_of_mem _ (ih h)

theorem lookupA_eraseA_self {α : Type} (l : List (String × α)) (k : String)
    (hnd : keysNodup l) : lookupA (eraseA l k) k = none := by
  induction l with
  | nil => simp [eraseA, lookupA]
  | cons p rest ih =>
    rcases p with ⟨k1, w⟩
    unfold keysNodup at hnd
    simp only [List.map_cons, List.nodup_cons] at hnd
    by_cases hk : k1 = k
    · subst hk
      rw [eraseA, if_pos rfl]
      cases hl : lookupA rest k1 with
      | none => rfl
      | some v => exact absurd (List.mem_map_of_mem Prod.fst (lookupA_mem hl)) hnd.1
    · rw [eraseA, if_neg hk, lookupA, if_neg hk]
      exact ih hnd.2

theorem keysNodup_setA {α : Type} (l : List (String × α)) (k : String) (v : α)
    (h : keysNodup l) : keysNodup (setA l k v) := by
  induction l with
  | nil => simp [setA, keysNodup]
  | cons p rest ih =>
    rcases p with ⟨k1, w⟩
    unfold keysNodup at h ⊢
    simp only [List.map_cons, List.nodup_cons] at h
    by_cases hk : k1 = k
    · subst hk
      rw [setA, if_pos rfl]
      simp only [List.map_cons, List.nodup_cons]
      exact h
    · rw [setA, if_neg hk]
      simp only [List.map_cons, List.nodup_cons]
      refine ⟨?_, ih h.2⟩
      intro hm
      rcases List.mem_map.1 hm with ⟨q, hq, hq1⟩
      rcases mem_setA hq with hq' | hq'
      · exact h.1 (by rw [← hq1]; exact List.mem_map_of_mem Prod.fst hq')
      · rw [hq'] at hq1
        exact hk hq1.symm

/-! ## Data model (`src/models.py`) and the Connection/Room registries
(`src/managers/connection_manager.py`, `src/managers/room_manager.py`)

A `User`'s websocket and peer-connection handles play no role in the room
claims; the room model keeps only the `room_id` field.  `Room` mirrors the
dataclass: `id`, ordered `users` list, `max_users`, and the stable
`session_id` generated at creation time (a fresh UUID in Python, passed in
as an explicit parameter here). -/

structure UserR where
  room_id : Option String
deriving Repr, DecidableEq

structure Room where
  id : String
  users : List String
  max_users : Nat
  session_id : String
deriving Repr, DecidableEq

/-- `Room.is_full` property: `len(self.users) >= self.max_users`. -/
def Room.is_full (r : Room) : Bool :=
  decide (r.max_users ≤ r.users.length)

/-- `Room.user_count` property: `len(self.users)`. -/
def Room.user_count (r : Room) : Nat :=
  r.users.length

/-- `config.MAX_USERS_PER_ROOM` (default 5). -/
def MAX_USERS_PER_ROOM : Nat := 5

/-- The joint state of `ConnectionManager._connections` and
`RoomManager._rooms` (the room registry holds a reference to the connection
registry and reads/writes `User.room_id` through it). -/
structure RMState where
  connections : List (String × UserR)
  rooms : List (String × Room)
deriving Repr, DecidableEq

/-- `ConnectionManager.get_user`. -/
def get_user (st : RMState) (uid : String) : Option UserR :=
  lookupA st.connections uid

/-- `RoomManager.get_room`. -/
def get_room (st : RMState) (rid : String) : Option Room :=
  lookupA st.rooms rid

/-- `RoomManager.get_all_rooms` (returns a copy of the rooms dict). -/
def get_all_rooms (st : RMState) : List (String × Room) :=
  st.rooms

def set_user (st : RMState) (uid : String) (u : UserR) : RMState :=
  { st with connections := setA st.connections uid u }

def set_room (st : RMState) (rid : String) (r : Room) : RMState :=
  { st with rooms := setA st.rooms rid r }

def del_room (st : RMState) (rid : String) : RMState :=
  { st with rooms := eraseA st.rooms rid }

/-- `ConnectionManager.add_connection`: stores a fresh `User` under
`user_id` (silently overwriting any existing entry). -/
def add_connection (st : RMState) (uid : String) : RMState :=
  set_user st uid { room_id := none }

/-- `ConnectionManager.remove_connection`: deletes the entry if present
(the peer-connection/websocket cleanup touches no room state). -/
def remove_connection (st : RMState) (uid : String) : RMState :=
  match get_user st uid with
  | none => st
  | some _ => { st with connections := eraseA st.connections uid }

/-- `RoomManager.create_room`: create a new room or return the existing
one.  `sid` stands for the fresh `uuid4` session identifier generated when
a room is actually created. -/
def create_room (st : RMState) (rid : String) (maxUsers : Nat) (sid : String) : RMState :=
  match get_room st rid with
  | some _ => st
  | none =>
    let room : Room := { id := rid, users := [], max_users := maxUsers, session_id := sid }
    { st with rooms := setA st.rooms rid room }

/-- `RoomManager.leave_room`: remove a user from their current room;
returns the room id they left.  Mirrors the source exactly, including the
final "clean up user state even if room doesn't exist" branch.  The guard
`if not user or not user.room_id` is Python truthiness: it fires on `None`
and on the empty-string room id alike, returning with no mutation. -/
def leave_room (st : RMState) (uid : String) : RMState × Option String :=
  match get_user st uid with
  | none => (st, none)
  | some u =>
    match u.room_id with
    | none => (st, none)
    | some rid =>
      if rid = "" then (st, none)
      else
      match get_room st rid with
      | some room =>
        if uid ∈ room.users then
          let users' := room.users.erase uid
          let st1 := set_user st uid { room_id := none }
          let st2 := if users' = [] then del_room st1 rid
                     else set_room st1 rid { room with users := users' }
          (st2, some rid)
        else
          (set_user st uid { room_id := none }, none)
      | none => (set_user st uid { room_id := none }, none)

/-- `RoomManager.join_room`.  The Python method grabs a reference `room`
into the dict before calling `leave_room`; `leave_room` mutates that same
object in place and may delete it from the dict (when the leaver emptied
it).  The embedding reconstructs the aliased object after the call: it is
the current dict entry when still present, and otherwise the detached
object with `uid` erased (exactly what `leave_room` left it as). -/
def join_room (st : RMState) (uid rid sid : String) : RMState × Bool :=
  match get_user st uid with
  | none => (st, false)
  | some _ =>
    let st1 := create_room st rid MAX_USERS_PER_ROOM sid
    match get_room st1 rid with
    | none => (st1, false)   -- unreachable: create_room just ensured presence
    | some room =>
      if room.is_full ∧ uid ∉ room.users then
        (st1, false)
      else
        let st2 := (leave_room st1 uid).1
        let roomAfter :=
          match get_room st2 rid with
          | some r => r
          | none => { room with users := room.users.erase uid }
        if uid ∈ roomAfter.users then
          (st2, true)
        else
          let roomNew := { roomAfter with users := roomAfter.users ++ [uid] }
          let st3 := match get_room st2 rid with
                     | some _ => set_room st2 rid roomNew
                     | none => st2
          (set_user st3 uid { room_id := some rid }, true)

/-- `RoomManager.cleanup_room`: force cleanup of a room and all its users. -/
def cleanup_room (st : RMState) (rid : String) : RMState × Bool :=
  match get_room st rid with
  | none => (st, false)
  | some room =>
    let st1 := room.users.foldl (fun s u => (leave_room s u).1) st
    match get_room st1 rid with
    | some _ => (del_room st1 rid, true)
    | none => (st1, false)

/-- States reachable from a freshly constructed manager pair by the
registry operations (register, join, leave, unregister, force cleanup,
explicit room creation). -/
inductive Reachable : RMState → Prop where
  | init : Reachable ⟨[], []⟩
  | register (uid : String) {st : RMState} :
      Reachable st → Reachable (add_connection st uid)
  | unregister (uid : String) {st : RMState} :
      Reachable st → Reachable (remove_connection st uid)
  | create (rid : String) (m : Nat) (sid : String) {st : RMState} :
      Reachable st → Reachable (create_room st rid m sid)
  | join (uid rid sid : String) {st : RMState} :
      Reachable st → Reachable (join_room st uid rid sid).1
  | leave (uid : String) {st : RMState} :
      Reachable st → Reachable (leave_room st uid).1
  | cleanup (rid : String) {st : RMState} :
      Reachable st → Reachable (cleanup_room st rid).1

/-! ### Capacity invariant (claim C4) -/

/-- Every room in the registry has at most `max_users` members. -/
def roomsCapOk (st : RMState) : Prop :=
  ∀ p ∈ st.rooms, p.2.users.length ≤ p.2.max_users

instance (st : RMState) : Decidable (roomsCapOk st) := by
  unfold roomsCapOk; infer_instance

/-- Registry well-formedness carried through the reachability induction:
room keys are distinct (they model a Python dict) and capacities hold. -/
def RMInv (st : RMState) : Prop :=
  keysNodup st.rooms ∧ roomsCapOk st

theorem keysNodup_eraseA {α : Type} (l : List (String × α)) (k : String)
    (h : keysNodup l) : keysNodup (eraseA l k) := by
  induction l with
  | nil => simpa [eraseA] using h
  | cons p rest ih =>
    rcases p with ⟨k1, w⟩
    unfold keysNodup at h ⊢
    simp only [List.map_cons, List.nodup_cons] at h
    by_cases hk : k1 = k
    · rw [eraseA, if_pos hk]
      exact h.2
    · rw [eraseA, if_neg hk]
      simp only [List.map_cons, List.nodup_cons]
      refine ⟨?_, ih h.2⟩
      intro hm
      rcases List.mem_map.1 hm with ⟨q, hq, hq1⟩
      exact h.1 (by rw [← hq1]; exact List.mem_map_of_mem Prod.fst (mem_eraseA hq))

theorem rmInv_register (st : RMState) (uid : String) (h : RMInv st) :
    RMInv (add_connection st uid) := h

theorem rmInv_unregister (st : RMState) (uid : String) (h : RMInv st) :
    RMInv (remove_connection st uid) := by
  unfold remove_connection
  split <;> exact h

theorem rmInv_create (st : RMState) (rid : String) (m : Nat) (sid : String)
    (h : RMInv st) : RMInv (create_room st rid m sid) := by
  cases hr : get_room st rid with
  | some room => simpa [create_room, hr] using h
  | none =>
    constructor
    · simpa [create_room, hr] using keysNodup_setA st.rooms rid _ h.1
    · intro p hp
      simp only [create_room, hr] at hp
      rcases mem_setA hp with hp' | hp'
      · exact h.2 p hp'
      · subst hp'
        simp

theorem rmInv_leave (st : RMState) (uid : String) (h : RMInv st) :
    RMInv (leave_room st uid).1 := by
  cases hu : get_user st uid with
  | none => simp only [leave_room, hu]; exact h
  | some u =>
    cases hrid : u.room_id with
    | none => simp only [leave_room, hu, hrid]; exact h
    | some rid =>
      by_cases hrid0 : rid = ""
      · simp only [leave_room, hu, hrid, if_pos hrid0]; exact h
      · cases hroom : get_room st rid with
        | none => simp only [leave_room, hu, hrid, if_neg hrid0, hroom]; exact h
        | some room =>
          by_cases hmem : uid ∈ room.users
          · by_cases he : room.users.erase uid = []
            · simp only [leave_room, hu, hrid, if_neg hrid0, hroom, if_pos hmem, if_pos he]
              exact ⟨keysNodup_eraseA st.rooms rid h.1,
                fun p hp => h.2 p (mem_eraseA hp)⟩
            · simp only [leave_room, hu, hrid, if_neg hrid0, hroom, if_pos hmem, if_neg he]
              refine ⟨keysNodup_setA st.rooms rid _ h.1, ?_⟩
              intro p hp
              rcases mem_setA hp with hp' | hp'
              · exact h.2 p hp'
              · subst hp'
                calc (room.users.erase uid).length
                    ≤ room.users.length := (List.erase_sublist uid room.users).length_le
                  _ ≤ room.max_users := h.2 (rid, room) (lookupA_mem hroom)
          · simp only [leave_room, hu, hrid, if_neg hrid0, hroom, if_neg hmem]
            exact h

theorem rmInv_foldl_leave (l : List String) (st : RMState) (h : RMInv st) :
    RMInv (l.foldl (fun s u => (leave_room s u).1) st) := by
  induction l generalizing st with
  | nil => exact h
  | cons x xs ih => exact ih _ (rmInv_leave st x h)

theorem rmInv_cleanup (st : RMState) (rid : String) (h : RMInv st) :
    RMInv (cleanup_room st rid).1 := by
  cases hroom : get_room st rid with
  | none => simp only [cleanup_room, hroom]; exact h
  | some room =>
    have h1 := rmInv_foldl_leave room.users st h
    cases hr1 : get_room (List.foldl (fun s u => (leave_room s u).1) st room.users) rid with
    | none => simp only [cleanup_room, hroom, hr1]; exact h1
    | some r =>
      simp only [cleanup_room, hroom, hr1]
      exact ⟨keysNodup_eraseA _ rid h1.1, fun p hp => h1.2 p (mem_eraseA hp)⟩

/-- Effect of `leave_room` on the entry of an arbitrary room `rid`: the
entry is unchanged, has `uid` erased from its member list, or has been
deleted (only possible when erasing `uid` emptied it). -/
theorem get_room_leave (st : RMState) (uid rid : String) (room : Room)
    (hnd : keysNodup st.rooms) (h : get_room st rid = some room) :
    get_room (leave_room st uid).1 rid = some room ∨
    get_room (leave_room st uid).1 rid
      = some { room with users := room.users.erase uid } ∨
    (get_room (leave_room st uid).1 rid = none ∧ room.users.erase uid = []) := by
  cases hu : get_user st uid with
  | none => left; simp only [leave_room, hu]; exact h
  | some u =>
    cases hrid : u.room_id with
    | none => left; simp only [leave_room, hu, hrid]; exact h
    | some rid2 =>
      by_cases hrid0 : rid2 = ""
      · left; simp only [leave_room, hu, hrid, if_pos hrid0]; exact h
      · cases hroom2 : get_room st rid2 with
        | none => left; simp only [leave_room, hu, hrid, if_neg hrid0, hroom2]; exact h
        | some room2 =>
          by_cases hmem : uid ∈ room2.users
          · by_cases he : room2.users.erase uid = []
            · simp only [leave_room, hu, hrid, if_neg hrid0, hroom2, if_pos hmem, if_pos he]
              by_cases hr : rid2 = rid
              · subst hr
                rw [h] at hroom2
                injection hroom2 with hrm
                right; right
                refine ⟨lookupA_eraseA_self st.rooms rid2 hnd, ?_⟩
                rw [hrm]
                exact he
              · left
                exact (lookupA_eraseA_ne st.rooms rid2 rid (fun e => hr e.symm)).trans h
            · simp only [leave_room, hu, hrid, if_neg hrid0, hroom2, if_pos hmem, if_neg he]
              by_cases hr : rid2 = rid
              · subst hr
                rw [h] at hroom2
                injection hroom2 with hrm
                right; left
                rw [hrm]
                exact lookupA_setA_self st.rooms rid2 _
              · left
                exact (lookupA_setA_ne st.rooms rid2 rid _ (fun e => hr e.symm)).trans h
          · simp only [leave_room, hu, hrid, if_neg hrid0, hroom2, if_neg hmem]
            left; exact h

theorem rmInv_join (st : RMState) (uid rid sid : String) (h : RMInv st) :
    RMInv (join_room st uid rid sid).1 := by
  have h1 : RMInv (create_room st rid MAX_USERS_PER_ROOM sid) :=
    rmInv_create st rid MAX_USERS_PER_ROOM sid h
  have h2 : RMInv (leave_room (create_room st rid MAX_USERS_PER_ROOM sid) uid).1 :=
    rmInv_leave _ uid h1
  cases hu : get_user st uid with
  | none => simp only [join_room, hu]; exact h
  | some u =>
    cases hr : get_room (create_room st rid MAX_USERS_PER_ROOM sid) rid with
    | none => simp only [join_room, hu, hr]; exact h1
    | some room =>
      by_cases hguard : room.is_full = true ∧ uid ∉ room.users
      · simp only [join_room, hu, hr, if_pos hguard]
        exact h1
      · have hnotfull : uid ∉ room.users → room.users.length < room.max_users := by
          intro hn
          by_contra hge
          exact hguard ⟨decide_eq_true (Nat.le_of_not_lt hge), hn⟩
        cases hr2 : get_room (leave_room (create_room st rid MAX_USERS_PER_ROOM sid) uid).1 rid with
        | none =>
          by_cases hmem : uid ∈ room.users.erase uid
          · simp only [join_room, hu, hr, if_neg hguard, hr2, if_pos hmem]
            exact h2
          · simp only [join_room, hu, hr, if_neg hguard, hr2, if_neg hmem]
            exact h2
        | some r =>
          by_cases hmem : uid ∈ r.users
          · simp only [join_room, hu, hr, if_neg hguard, hr2, if_pos hmem]
            exact h2
          · simp only [join_room, hu, hr, if_neg hguard, hr2, if_neg hmem]
            refine ⟨keysNodup_setA _ rid _ h2.1, ?_⟩
            intro p hp
            rcases mem_setA hp with hp' | hp'
            · exact h2.2 p hp'
            · subst hp'
              have hcap : room.users.length ≤ room.max_users :=
                h1.2 (rid, room) (lookupA_mem hr)
              rcases get_room_leave _ uid rid room h1.1 hr with h3 | h3 | h3
              · -- entry unchanged: r = room
                rw [hr2] at h3
                injection h3 with h3
                subst h3
                have := hnotfull hmem
                simp only [List.length_append, List.length_singleton]
                omega
              · -- entry has uid erased
                rw [hr2] at h3
                injection h3 with h3
                subst h3
                simp only [List.length_append, List.length_singleton]
                by_cases hin : uid ∈ room.users
                · have := List.length_erase_of_mem hin
                  have hpos : 0 < room.users.length := List.length_pos_of_mem hin
                  omega
                · rw [List.erase_of_not_mem hin] at hmem
                  have := hnotfull hmem
                  rw [List.erase_of_not_mem hin]
                  omega
              · rw [hr2] at h3
                exact absurd h3.1 (by simp)

/-- States reachable by the registry operations satisfy the registry
well-formedness invariant. -/
theorem reachable_rmInv (st : RMState) (h : Reachable st) : RMInv st := by
  induction h with
  | init =>
    exact ⟨List.nodup_nil, fun p hp => absurd hp (List.not_mem_nil p)⟩
  | register uid _ ih => exact rmInv_register _ uid ih
  | unregister uid _ ih => exact rmInv_unregister _ uid ih
  | create rid m sid _ ih => exact rmInv_create _ rid m sid ih
  | join uid rid sid _ ih => exact rmInv_join _ uid rid sid ih
  | leave uid _ ih => exact rmInv_leave _ uid ih
  | cleanup rid _ ih => exact rmInv_cleanup _ rid ih

/-- Claim C4: in every reachable state each room's member count is at most
its configured capacity, and a join by a non-member of a full room returns
false and leaves the whole state (rooms and room references) unchanged. -/
theorem room_capacity_spec (st : RMState) (h : Reachable st) :
    roomsCapOk st ∧
    ∀ uid rid sid u room, get_user st uid = some u → get_room st rid = some room →
      room.is_full = true → uid ∉ room.users →
      join_room st uid rid sid = (st, false) := by
  refine ⟨(reachable_rmInv st h).2, ?_⟩
  intro uid rid sid u room hu hr hfull hnot
  have hc : create_room st rid MAX_USERS_PER_ROOM sid = st := by
    simp [create_room, hr]
  simp only [join_room, hu, hc, hr]
  rw [if_pos ⟨hfull, hnot⟩]

/-- Witness for `room_capacity_spec`: a reachable state with a registered
non-member `v` and a concrete full room (capacity 0). -/
theorem room_capacity_spec_witness :
    roomsCapOk (create_room (add_connection (add_connection ⟨[], []⟩ "u") "v") "r" 0 "s") ∧
    join_room (create_room (add_connection (add_connection ⟨[], []⟩ "u") "v") "r" 0 "s")
        "v" "r" "x"
      = (create_room (add_connection (add_connection ⟨[], []⟩ "u") "v") "r" 0 "s", false) := by
  have h := room_capacity_spec _
    (Reachable.create "r" 0 "s" (Reachable.register "v" (Reachable.register "u" Reachable.init)))
  exact ⟨h.1, h.2 "v" "r" "x" ⟨none⟩ ⟨"r", [], 0, "s"⟩ (by decide) (by decide)
    (by decide) (by decide)⟩

/-- Claim C1: the claimed invariant — a registered session's room reference
is set to a room `R` iff `R` exists in the room registry and lists the
session — fails on the code.  In the reachable state obtained by
registering `u`, joining room `r`, and joining `r` again, the re-join path
of `join_room` calls `leave_room` (which deletes the emptied room) and then
appends to the stale room object and re-sets the user's reference: the user
ends with room reference `some "r"` while no room `"r"` exists. -/
theorem c1_room_reference_invariant_fails :
    get_user ((join_room ((join_room (add_connection ⟨[], []⟩ "u") "u" "r" "sidA").1)
        "u" "r" "sidB").1) "u" = some ⟨some "r"⟩ ∧
    get_room ((join_room ((join_room (add_connection ⟨[], []⟩ "u") "u" "r" "sidA").1)
        "u" "r" "sidB").1) "r" = none := by
  constructor <;> rfl

/-- Claim C2: the claim that a join by a session already a member of the
room returns true and leaves the room's member list unchanged fails on the
code when the session is the room's only member: the join returns `true`
but the room has been deleted from the registry. -/
theorem c2_rejoin_by_sole_member_deletes_room :
    (join_room ⟨[("u", ⟨some "r"⟩)], [("r", ⟨"r", ["u"], 5, "sidA"⟩)]⟩ "u" "r" "sidB").2
      = true ∧
    get_room (join_room ⟨[("u", ⟨some "r"⟩)], [("r", ⟨"r", ["u"], 5, "sidA"⟩)]⟩
      "u" "r" "sidB").1 "r" = none := by
  constructor <;> rfl

/-- Claim C9 (counterexample): a session whose current room is the
empty-string identifier — reachable, since the room id is client-supplied —
is treated as "in no room" by the Python truthiness guard: `leave_room`
returns none and removes nothing, although the session is a listed member
of the existing room `""`. -/
theorem c9_counterexample_empty_room_id :
    leave_room ⟨[("u", ⟨some ""⟩)], [("", ⟨"", ["u"], 5, "s"⟩)]⟩ "u"
      = (⟨[("u", ⟨some ""⟩)], [("", ⟨"", ["u"], 5, "s"⟩)]⟩, none) := by
  rfl

/-- Claim C9 (amended, with the nonempty-identifier caveat the
counterexample forces): for a room identifier other than `""`, `leave_room`
removes the session from its current room and returns that room's
identifier; if the removal empties the room the room is deleted and absent
from the all-rooms snapshot; on a session in no room it returns none and
changes nothing. -/
theorem leave_room_spec (st : RMState) (uid : String) (u : UserR)
    (hu : get_user st uid = some u) (hk : keysNodup st.rooms) :
    (u.room_id = none → leave_room st uid = (st, none)) ∧
    (∀ rid room, u.room_id = some rid → rid ≠ "" → get_room st rid = some room →
      uid ∈ room.users →
      (leave_room st uid).2 = some rid ∧
      (room.users.erase uid = [] →
        lookupA (get_all_rooms (leave_room st uid).1) rid = none) ∧
      (room.users.erase uid ≠ [] →
        get_room (leave_room st uid).1 rid =
          some { room with users := room.users.erase uid })) := by
  constructor
  · intro hnone
    simp [leave_room, hu, hnone]
  · intro rid room hrid hrid0 hroom hmem
    by_cases he : room.users.erase uid = []
    · refine ⟨?_, ?_, ?_⟩
      · simp [leave_room, hu, hrid, hrid0, hroom, hmem, he]
      · intro _
        simp only [leave_room, hu, hrid, if_neg hrid0, hroom, if_pos hmem, if_pos he]
        exact lookupA_eraseA_self st.rooms rid hk
      · intro hne
        exact absurd he hne
    · refine ⟨?_, ?_, ?_⟩
      · simp [leave_room, hu, hrid, hrid0, hroom, hmem, he]
      · intro h0
        exact absurd h0 he
      · intro _
        simp only [leave_room, hu, hrid, if_neg hrid0, hroom, if_pos hmem, if_neg he]
        exact lookupA_setA_self st.rooms rid _

/-- Witness for `leave_room_spec`: the sole member of a concrete room
leaves; the call returns the room id and the room is gone. -/
theorem leave_room_spec_witness :
    (leave_room ⟨[("u", ⟨some "r"⟩)], [("r", ⟨"r", ["u"], 5, "s"⟩)]⟩ "u").2 = some "r" ∧
    lookupA (get_all_rooms
      (leave_room ⟨[("u", ⟨some "r"⟩)], [("r", ⟨"r", ["u"], 5, "s"⟩)]⟩ "u").1) "r" = none := by
  have h := (leave_room_spec ⟨[("u", ⟨some "r"⟩)], [("r", ⟨"r", ["u"], 5, "s"⟩)]⟩
    "u" ⟨some "r"⟩ (by decide) (by decide)).2 "r" ⟨"r", ["u"], 5, "s"⟩ rfl (by decide)
    (by decide) (by decide)
  exact ⟨h.1, h.2.1 (by decide)⟩

/-- Claim C10 (counterexample): a session whose room reference is the
empty-string identifier naming an absent room hits the Python truthiness
guard first: `leave_room` returns none but does NOT clear the dangling
reference, contradicting the claimed cleanup. -/
theorem c10_counterexample_empty_room_id :
    leave_room ⟨[("u", ⟨some ""⟩)], []⟩ "u" = (⟨[("u", ⟨some ""⟩)], []⟩, none) ∧
    get_user (leave_room ⟨[("u", ⟨some ""⟩)], []⟩ "u").1 "u" = some ⟨some ""⟩ := by
  constructor <;> rfl

/-- Claim C10 (amended, with the nonempty-identifier caveat the
counterexample forces): on a session whose room reference names a room id
other than `""` that is absent from the registry, or a room that does not
list the session, `leave_room` clears the reference, returns none, and
removes no room. -/
theorem leave_room_dangling_reference (st : RMState) (uid rid : String) (u : UserR)
    (hu : get_user st uid = some u) (hrid : u.room_id = some rid) (hrid0 : rid ≠ "")
    (h : get_room st rid = none ∨
         ∃ room, get_room st rid = some room ∧ uid ∉ room.users) :
    leave_room st uid = (set_user st uid ⟨none⟩, none) ∧
    (leave_room st uid).1.rooms = st.rooms ∧
    get_user (leave_room st uid).1 uid = some ⟨none⟩ := by
  have heq : leave_room st uid = (set_user st uid ⟨none⟩, none) := by
    rcases h with h | ⟨room, hroom, hnot⟩
    · simp [leave_room, hu, hrid, hrid0, h]
    · simp [leave_room, hu, hrid, hrid0, hroom, hnot]
  refine ⟨heq, ?_, ?_⟩
  · rw [heq]
    rfl
  · rw [heq]
    exact lookupA_setA_self st.connections uid _

/-- Witness for `leave_room_dangling_reference`: a session points at a room
that is not in the registry. -/
theorem leave_room_dangling_reference_witness :
    leave_room ⟨[("u", ⟨some "r"⟩)], []⟩ "u"
      = (set_user ⟨[("u", ⟨some "r"⟩)], []⟩ "u" ⟨none⟩, none) ∧
    (leave_room ⟨[("u", ⟨some "r"⟩)], []⟩ "u").1.rooms = ([] : List (String × Room)) ∧
    get_user (leave_room ⟨[("u", ⟨some "r"⟩)], []⟩ "u").1 "u" = some ⟨none⟩ :=
  leave_room_dangling_reference ⟨[("u", ⟨some "r"⟩)], []⟩ "u" "r" ⟨some "r"⟩
    (by decide) rfl (by decide) (Or.inl (by decide))


/-! ## WebRTC peer-connection registry (`src/managers/webrtc_manager.py`)

An `RTCPeerConnection` handle is opaque here; only the set of keys of each
user's `peer_connections` dict matters for the claims, kept in insertion
order.  The state is the connection registry that `WebRTCManager` reads
through its `connection_manager`. -/

structure UserW where
  peers : List String
deriving Repr, DecidableEq

abbrev WState : Type := List (String × UserW)

/-- The keys of a user's `peer_connections` dict ([] when absent). -/
def peersOf (st : WState) (k : String) : List String :=
  match lookupA st k with
  | some u => u.peers
  | none => []

/-- `WebRTCManager.create_peer_connection`: raises when the user is absent,
returns the existing handle when present, otherwise stores a new one. -/
def create_peer_connection (st : WState) (uid tid : String) : Except String WState :=
  match lookupA st uid with
  | none => Except.error ("User " ++ uid ++ " not found")
  | some u =>
    if tid ∈ u.peers then Except.ok st
    else Except.ok (setA st uid ⟨u.peers ++ [tid]⟩)

/-- First half of `WebRTCManager.cleanup_peer_connection`: remove the
`uid → tid` handle if present (closing the handle itself is external and
does not affect the mappings). -/
def cleanup_fwd_half (st : WState) (uid tid : String) : WState :=
  match lookupA st uid with
  | some u => if tid ∈ u.peers then setA st uid ⟨u.peers.erase tid⟩ else st
  | none => st

/-- `WebRTCManager.cleanup_peer_connection`: the forward removal followed
by the symmetric removal of the mirror `tid → uid` handle if present. -/
def cleanup_peer_connection (st : WState) (uid tid : String) : WState :=
  match lookupA (cleanup_fwd_half st uid tid) tid with
  | some t => if uid ∈ t.peers
      then setA (cleanup_fwd_half st uid tid) tid ⟨t.peers.erase uid⟩
      else cleanup_fwd_half st uid tid
  | none => cleanup_fwd_half st uid tid

/-- `WebRTCManager.cleanup_all_user_connections`: iterates a snapshot of
the user's own outgoing target ids. -/
def cleanup_all_user_connections (st : WState) (uid : String) : WState :=
  match lookupA st uid with
  | none => st
  | some u => u.peers.foldl (fun s t => cleanup_peer_connection s uid t) st

/-- The property claimed of `cleanup_all_user_connections(x)`: no session's
peer-connection mapping retains an entry keyed by `x`. -/
def no_entries_for (st : WState) (x : String) : Prop :=
  ∀ p ∈ st, x ∉ p.2.peers

instance (st : WState) (x : String) : Decidable (no_entries_for st x) := by
  unfold no_entries_for; infer_instance

theorem peersOf_setA_self (st : WState) (k : String) (u : UserW) :
    peersOf (setA st k u) k = u.peers := by
  unfold peersOf
  rw [lookupA_setA_self]

theorem peersOf_setA_ne (st : WState) (k k' : String) (u : UserW) (h : k' ≠ k) :
    peersOf (setA st k u) k' = peersOf st k' := by
  unfold peersOf
  rw [lookupA_setA_ne _ _ _ _ h]

theorem peersOf_fwd_sublist (st : WState) (a b k : String) :
    (peersOf (cleanup_fwd_half st a b) k).Sublist (peersOf st k) := by
  unfold cleanup_fwd_half
  cases hu : lookupA st a with
  | none => exact List.Sublist.refl _
  | some u =>
    by_cases hb : b ∈ u.peers
    · simp only [if_pos hb]
      by_cases hk : k = a
      · subst hk
        rw [peersOf_setA_self]
        have : peersOf st k = u.peers := by unfold peersOf; rw [hu]
        rw [this]
        exact List.erase_sublist b u.peers
      · rw [peersOf_setA_ne _ _ _ _ hk]
    · simp only [if_neg hb]
      exact List.Sublist.refl _

/-- Both halves of `cleanup_peer_connection` only erase elements from peer
lists: every user's peer list in the result is a sublist of the original. -/
theorem peersOf_cleanup_sublist (st : WState) (a b k : String) :
    (peersOf (cleanup_peer_connection st a b) k).Sublist (peersOf st k) := by
  unfold cleanup_peer_connection
  cases ht : lookupA (cleanup_fwd_half st a b) b with
  | none => exact peersOf_fwd_sublist st a b k
  | some t =>
    by_cases hb : a ∈ t.peers
    · simp only [if_pos hb]
      have hsnd : (peersOf (setA (cleanup_fwd_half st a b) b ⟨t.peers.erase a⟩) k).Sublist
          (peersOf (cleanup_fwd_half st a b) k) := by
        by_cases hk : k = b
        · subst hk
          rw [peersOf_setA_self]
          have hft : peersOf (cleanup_fwd_half st a k) k = t.peers := by
            unfold peersOf; rw [ht]
          rw [hft]
          exact List.erase_sublist a t.peers
        · rw [peersOf_setA_ne _ _ _ _ hk]
      exact hsnd.trans (peersOf_fwd_sublist st a b k)
    · simp only [if_neg hb]
      exact peersOf_fwd_sublist st a b k

theorem not_mem_peersOf_cleanup (st : WState) (a b k : String) (x : String)
    (h : x ∉ peersOf st k) : x ∉ peersOf (cleanup_peer_connection st a b) k :=
  fun hm => h ((peersOf_cleanup_sublist st a b k).subset hm)

theorem nodup_peersOf_cleanup (st : WState) (a b : String)
    (h : ∀ k, (peersOf st k).Nodup) (k : String) :
    (peersOf (cleanup_peer_connection st a b) k).Nodup :=
  (h k).sublist (peersOf_cleanup_sublist st a b k)

theorem nodup_peersOf_fwd (st : WState) (a b : String)
    (h : ∀ k, (peersOf st k).Nodup) (k : String) :
    (peersOf (cleanup_fwd_half st a b) k).Nodup :=
  (h k).sublist (peersOf_fwd_sublist st a b k)

/-- The forward half removes the `x → t` edge. -/
theorem fwd_removes (st : WState) (x t : String)
    (h : ∀ k, (peersOf st k).Nodup) :
    t ∉ peersOf (cleanup_fwd_half st x t) x := by
  unfold cleanup_fwd_half
  cases hu : lookupA st x with
  | none =>
    show t ∉ peersOf st x
    unfold peersOf
    rw [hu]
    exact List.not_mem_nil t
  | some u =>
    have hux : peersOf st x = u.peers := by unfold peersOf; rw [hu]
    by_cases hb : t ∈ u.peers
    · simp only [if_pos hb]
      rw [peersOf_setA_self]
      intro hm
      have hnd : u.peers.Nodup := hux ▸ h x
      exact ((hnd.mem_erase_iff.1 hm).1) rfl
    · simp only [if_neg hb]
      rw [hux]
      exact hb

/-- After `cleanup_peer_connection st x t`, the `x → t` edge is gone. -/
theorem cleanup_removes_fwd (st : WState) (x t : String)
    (h : ∀ k, (peersOf st k).Nodup) :
    t ∉ peersOf (cleanup_peer_connection st x t) x := by
  have h1 : t ∉ peersOf (cleanup_fwd_half st x t) x := fwd_removes st x t h
  unfold cleanup_peer_connection
  cases ht : lookupA (cleanup_fwd_half st x t) t with
  | none => exact h1
  | some tu =>
    by_cases hb : x ∈ tu.peers
    · simp only [if_pos hb]
      by_cases hk : x = t
      · subst hk
        rw [peersOf_setA_self]
        intro hm
        have hptu : peersOf (cleanup_fwd_half st x x) x = tu.peers := by
          unfold peersOf; rw [ht]
        have hnd : tu.peers.Nodup := hptu ▸ nodup_peersOf_fwd st x x h x
        exact ((hnd.mem_erase_iff.1 hm).1) rfl
      · rw [peersOf_setA_ne _ _ _ _ hk]
        exact h1
    · simp only [if_neg hb]
      exact h1

/-- After `cleanup_peer_connection st x t`, the mirror `t → x` edge is gone. -/
theorem cleanup_removes_rev (st : WState) (x t : String)
    (h : ∀ k, (peersOf st k).Nodup) :
    x ∉ peersOf (cleanup_peer_connection st x t) t := by
  unfold cleanup_peer_connection
  cases ht : lookupA (cleanup_fwd_half st x t) t with
  | none =>
    show x ∉ peersOf (cleanup_fwd_half st x t) t
    unfold peersOf
    rw [ht]
    exact List.not_mem_nil x
  | some tu =>
    have hptu : peersOf (cleanup_fwd_half st x t) t = tu.peers := by
      unfold peersOf; rw [ht]
    by_cases hb : x ∈ tu.peers
    · simp only [if_pos hb]
      rw [peersOf_setA_self]
      intro hm
      have hnd : tu.peers.Nodup := hptu ▸ nodup_peersOf_fwd st x t h t
      exact ((hnd.mem_erase_iff.1 hm).1) rfl
    · simp only [if_neg hb]
      rw [hptu]
      exact hb

theorem not_mem_peersOf_foldl (L : List String) (s : WState) (x a k : String)
    (h : a ∉ peersOf s k) :
    a ∉ peersOf (L.foldl (fun s' t' => cleanup_peer_connection s' x t') s) k := by
  induction L generalizing s with
  | nil => exact h
  | cons t0 L' ih => exact ih _ (not_mem_peersOf_cleanup s x t0 k a h)

theorem cleanup_foldl_removes (L : List String) (s : WState) (x : String)
    (h : ∀ k, (peersOf s k).Nodup) :
    ∀ t ∈ L,
      t ∉ peersOf (L.foldl (fun s' t' => cleanup_peer_connection s' x t') s) x ∧
      x ∉ peersOf (L.foldl (fun s' t' => cleanup_peer_connection s' x t') s) t := by
  induction L generalizing s with
  | nil => intro t ht; exact absurd ht (List.not_mem_nil t)
  | cons t0 L' ih =>
    intro t ht
    rcases List.mem_cons.1 ht with ht | ht
    · subst ht
      simp only [List.foldl_cons]
      exact ⟨not_mem_peersOf_foldl L' _ x t x (cleanup_removes_fwd s x t h),
             not_mem_peersOf_foldl L' _ x x t (cleanup_removes_rev s x t h)⟩
    · simp only [List.foldl_cons]
      exact ih (cleanup_peer_connection s x t0) (nodup_peersOf_cleanup s x t0 h) t ht

/-- Claim C3 (counterexample): a one-sided `y → x` handle, created without
an `x → y` counterpart, survives `cleanup_all_user_connections("x")` — the
claim that afterwards no session's mapping contains an entry keyed `x` is
false on the code. -/
theorem c3_counterexample_one_sided_link :
    ¬ no_entries_for
        (cleanup_all_user_connections [("x", ⟨[]⟩), ("y", ⟨["x"]⟩)] "x") "x" := by
  decide

/-- Claim C3 (amended): after `cleanup_all_user_connections(x)`, for every
target `t` that `x` held an outgoing handle to, both the `x → t` handle and
the mirror `t → x` handle are gone; a `y → x` handle with no `x → y`
counterpart is not touched (see the counterexample). -/
theorem cleanup_all_user_connections_bidirectional (st : WState) (x : String)
    (u : UserW) (hu : lookupA st x = some u)
    (hw : ∀ p ∈ st, p.2.peers.Nodup) :
    ∀ t ∈ u.peers,
      t ∉ peersOf (cleanup_all_user_connections st x) x ∧
      x ∉ peersOf (cleanup_all_user_connections st x) t := by
  have hnp : ∀ k, (peersOf st k).Nodup := by
    intro k
    unfold peersOf
    cases hl : lookupA st k with
    | none => exact List.nodup_nil
    | some v => exact hw (k, v) (lookupA_mem hl)
  intro t ht
  simp only [cleanup_all_user_connections, hu]
  exact cleanup_foldl_removes u.peers st x hnp t ht

/-- Witness for `cleanup_all_user_connections_bidirectional` on a concrete
two-user state with a mutual link. -/
theorem cleanup_all_user_connections_bidirectional_witness :
    "y" ∉ peersOf (cleanup_all_user_connections [("x", ⟨["y"]⟩), ("y", ⟨["x"]⟩)] "x") "x" ∧
    "x" ∉ peersOf (cleanup_all_user_connections [("x", ⟨["y"]⟩), ("y", ⟨["x"]⟩)] "x") "y" :=
  cleanup_all_user_connections_bidirectional [("x", ⟨["y"]⟩), ("y", ⟨["x"]⟩)] "x"
    ⟨["y"]⟩ (by decide) (by decide) "y" (by decide)


/-! ## Recording coordinator (`src/managers/recording_manager.py`)

Timestamps (`datetime.now()`) are embedded as integer seconds passed in
explicitly by the caller; `duration` is the difference in seconds.  The
storage-folder creation is an external collaborator and affects none of
this state. -/

structure RecordingSession where
  session_id : String
  room_id : String
  started_at : Int
  ended_at : Option Int
  files : List String
  status : String
deriving Repr, DecidableEq

/-- `RecordingSession.duration` property: `(ended_at - started_at)` in
seconds when ended, none otherwise. -/
def RecordingSession.duration (r : RecordingSession) : Option Int :=
  match r.ended_at with
  | some e => some (e - r.started_at)
  | none => none

/-- `RecordingManager._active_recordings` (keyed by room id) and
`RecordingManager._recording_history` (keyed by session/folder id). -/
structure RecState where
  active : List (String × RecordingSession)
  history : List (String × RecordingSession)
deriving Repr, DecidableEq

/-- `RecordingManager.start_recording`: raises when the room is absent,
returns the existing session id when a recording is already active,
otherwise creates a fresh active entry using the room's stable folder id. -/
def start_recording (rooms : List (String × Room)) (st : RecState) (rid : String)
    (now : Int) : RecState × Except String String :=
  match lookupA rooms rid with
  | none => (st, Except.error ("Room " ++ rid ++ " not found"))
  | some room =>
    match lookupA st.active rid with
    | some existing => (st, Except.ok existing.session_id)
    | none =>
      let recNew : RecordingSession :=
        { session_id := room.session_id, room_id := rid, started_at := now,
          ended_at := none, files := [], status := "active" }
      ({ st with active := setA st.active rid recNew }, Except.ok room.session_id)

/-- `RecordingManager.stop_recording`: none when no active recording,
otherwise stamps the end time, marks it stopped, and moves the entry from
the active dict to the history dict keyed by its session id. -/
def stop_recording (st : RecState) (rid : String) (now : Int) :
    RecState × Option RecordingSession :=
  match lookupA st.active rid with
  | none => (st, none)
  | some r =>
    let stopped : RecordingSession := { r with ended_at := some now, status := "stopped" }
    ({ active := eraseA st.active rid,
       history := setA st.history stopped.session_id stopped }, some stopped)

/-- `RecordingManager.force_stop_recording`: same as stop with a reason
recorded in the status. -/
def force_stop_recording (st : RecState) (rid reason : String) (now : Int) :
    RecState × Option RecordingSession :=
  match lookupA st.active rid with
  | none => (st, none)
  | some r =>
    let stopped : RecordingSession :=
      { r with ended_at := some now, status := "stopped (" ++ reason ++ ")" }
    ({ active := eraseA st.active rid,
       history := setA st.history stopped.session_id stopped }, some stopped)

/-- The age test of `RecordingManager.cleanup_old_recordings`. -/
def recordingIsOld (cutoff : Int) (r : RecordingSession) : Bool :=
  match r.ended_at with
  | some e => decide (e < cutoff)
  | none => false

/-- `RecordingManager.cleanup_old_recordings`: drops history entries whose
end timestamp is older than the cutoff; returns the count removed. -/
def cleanup_old_recordings (st : RecState) (days_old : Int) (now : Int) :
    RecState × Nat :=
  if days_old ≤ 0 then (st, 0)
  else
    let cutoff := now - days_old * (24 * 60 * 60)
    ({ st with history := st.history.filter (fun p => ! recordingIsOld cutoff p.2) },
      (st.history.filter (fun p => recordingIsOld cutoff p.2)).length)

/-- Number of entries of an association list carrying a given key. -/
def countKey {α : Type} (l : List (String × α)) (k : String) : Nat :=
  l.countP (fun p => p.1 == k)

theorem countKey_le_one {α : Type} (l : List (String × α)) (k : String)
    (h : keysNodup l) : countKey l k ≤ 1 := by
  induction l with
  | nil => simp [countKey]
  | cons p rest ih =>
    rcases p with ⟨k1, v⟩
    unfold keysNodup at h
    simp only [List.map_cons, List.nodup_cons] at h
    unfold countKey at ih ⊢
    rw [List.countP_cons]
    by_cases hk : k1 = k
    · subst hk
      have hz : rest.countP (fun p => p.1 == k1) = 0 := by
        rw [List.countP_eq_zero]
        intro q hq
        simp only [beq_iff_eq]
        intro he
        exact h.1 (by rw [← he]; exact List.mem_map_of_mem Prod.fst hq)
      simp [hz]
    · have : ((k1, v).1 == k) = false := by
        simp only [beq_eq_false_iff_ne]
        exact hk
      rw [this]
      simpa using ih h.2

theorem lookupA_setA_isSome {α : Type} (l : List (String × α)) (k k' : String) (v : α)
    (h : (lookupA l k).isSome = true) : (lookupA (setA l k' v) k).isSome = true := by
  by_cases hk : k = k'
  · subst hk
    rw [lookupA_setA_self]
    rfl
  · rw [lookupA_setA_ne _ _ _ _ hk]
    exact h

/-- Claim C5: `start_recording` fails with a room-not-found error when the
room is absent; when a recording is already active it returns the existing
session's folder id without touching state; a second start without a stop
is a no-op returning the same folder id; the active map keeps at most one
entry per room. -/
theorem start_recording_spec (rooms : List (String × Room)) (st : RecState)
    (rid : String) (now now2 : Int) :
    (lookupA rooms rid = none →
      start_recording rooms st rid now
        = (st, Except.error ("Room " ++ rid ++ " not found"))) ∧
    (∀ room ex, lookupA rooms rid = some room → lookupA st.active rid = some ex →
      start_recording rooms st rid now = (st, Except.ok ex.session_id)) ∧
    (∀ room, lookupA rooms rid = some room →
      start_recording rooms (start_recording rooms st rid now).1 rid now2
        = ((start_recording rooms st rid now).1, (start_recording rooms st rid now).2)) ∧
    (keysNodup st.active →
      keysNodup (start_recording rooms st rid now).1.active ∧
      ∀ k, countKey (start_recording rooms st rid now).1.active k ≤ 1) := by
  refine ⟨?_, ?_, ?_, ?_⟩
  · intro h
    simp [start_recording, h]
  · intro room ex hr h
    simp [start_recording, hr, h]
  · intro room hr
    cases ha : lookupA st.active rid with
    | some ex => simp [start_recording, hr, ha]
    | none =>
      have hself : lookupA (setA st.active rid
          ({ session_id := room.session_id, room_id := rid, started_at := now,
             ended_at := none, files := [], status := "active" } : RecordingSession)) rid
          = some { session_id := room.session_id, room_id := rid, started_at := now,
                   ended_at := none, files := [], status := "active" } :=
        lookupA_setA_self st.active rid _
      simp [start_recording, hr, ha, hself]
  · intro hnd
    cases hr : lookupA rooms rid with
    | none =>
      constructor
      · simpa [start_recording, hr] using hnd
      · intro k
        simp only [start_recording, hr]
        exact countKey_le_one st.active k hnd
    | some room =>
      cases ha : lookupA st.active rid with
      | some ex =>
        constructor
        · simpa [start_recording, hr, ha] using hnd
        · intro k
          simp only [start_recording, hr, ha]
          exact countKey_le_one st.active k hnd
      | none =>
        have hnd2 : keysNodup (setA st.active rid
            ({ session_id := room.session_id, room_id := rid, started_at := now,
               ended_at := none, files := [], status := "active" } : RecordingSession)) :=
          keysNodup_setA st.active rid _ hnd
        constructor
        · simpa [start_recording, hr, ha] using hnd2
        · intro k
          simp only [start_recording, hr, ha]
          exact countKey_le_one _ k hnd2

/-- Witness for `start_recording_spec` on a concrete room and an already
active recording. -/
theorem start_recording_spec_witness :
    start_recording [("r", ⟨"r", ["u"], 5, "sid"⟩)]
        ⟨[("r", ⟨"sid", "r", 0, none, [], "active"⟩)], []⟩ "r" 7
      = (⟨[("r", ⟨"sid", "r", 0, none, [], "active"⟩)], []⟩, Except.ok "sid") ∧
    start_recording [("r", ⟨"r", ["u"], 5, "sid"⟩)] ⟨[], []⟩ "q" 7
      = (⟨[], []⟩, Except.error "Room q not found") := by
  constructor
  · exact (start_recording_spec [("r", ⟨"r", ["u"], 5, "sid"⟩)]
      ⟨[("r", ⟨"sid", "r", 0, none, [], "active"⟩)], []⟩ "r" 7 0).2.1
      ⟨"r", ["u"], 5, "sid"⟩ ⟨"sid", "r", 0, none, [], "active"⟩ (by decide) (by decide)
  · exact (start_recording_spec [("r", ⟨"r", ["u"], 5, "sid"⟩)] ⟨[], []⟩ "q" 7 0).1
      (by decide)

/-- Claim C6: `stop_recording` returns none when no recording is active;
otherwise it stamps the end time, sets status stopped, moves the entry
from the active map into history keyed by its session id and returns it;
its duration is defined and nonnegative when time is monotone; an
immediate second stop returns none. -/
theorem stop_recording_spec (st : RecState) (rid : String) (now now2 : Int)
    (hnd : keysNodup st.active) :
    (lookupA st.active rid = none → stop_recording st rid now = (st, none)) ∧
    (∀ r, lookupA st.active rid = some r →
      (stop_recording st rid now).2
        = some { r with ended_at := some now, status := "stopped" } ∧
      lookupA (stop_recording st rid now).1.active rid = none ∧
      lookupA (stop_recording st rid now).1.history r.session_id
        = some { r with ended_at := some now, status := "stopped" } ∧
      ({ r with ended_at := some now, status := "stopped" } : RecordingSession).duration
        = some (now - r.started_at) ∧
      (r.started_at ≤ now →
        ∀ d, ({ r with ended_at := some now, status := "stopped" }
          : RecordingSession).duration = some d → 0 ≤ d) ∧
      (stop_recording (stop_recording st rid now).1 rid now2).2 = none) := by
  constructor
  · intro h
    simp [stop_recording, h]
  · intro r h
    have hactive : lookupA (eraseA st.active rid) rid = none :=
      lookupA_eraseA_self st.active rid hnd
    refine ⟨?_, ?_, ?_, ?_, ?_, ?_⟩
    · simp [stop_recording, h]
    · simp only [stop_recording, h]
      exact hactive
    · simp only [stop_recording, h]
      exact lookupA_setA_self st.history r.session_id _
    · rfl
    · intro hle d hd
      unfold RecordingSession.duration at hd
      simp only at hd
      injection hd with hd
      omega
    · simp only [stop_recording, h]
      simp [stop_recording, hactive]

/-- Witness for `stop_recording_spec` on a concrete active recording. -/
theorem stop_recording_spec_witness :
    (stop_recording ⟨[("r", ⟨"sid", "r", 3, none, [], "active"⟩)], []⟩ "r" 10).2
      = some ⟨"sid", "r", 3, some 10, [], "stopped"⟩ ∧
    lookupA (stop_recording ⟨[("r", ⟨"sid", "r", 3, none, [], "active"⟩)], []⟩ "r" 10).1.history
        "sid" = some ⟨"sid", "r", 3, some 10, [], "stopped"⟩ ∧
    (stop_recording (stop_recording ⟨[("r", ⟨"sid", "r", 3, none, [], "active"⟩)], []⟩
        "r" 10).1 "r" 11).2 = none := by
  have h := (stop_recording_spec ⟨[("r", ⟨"sid", "r", 3, none, [], "active"⟩)], []⟩
    "r" 10 11 (by decide)).2 ⟨"sid", "r", 3, none, [], "active"⟩ (by decide)
  exact ⟨h.1, h.2.2.1, h.2.2.2.2.2⟩

/-- Claim C7 (counterexample): history is keyed by the room's stable folder
id, so stopping a second recording of the same room replaces the entry the
first stop stored: after start/stop/start/stop the history entry at "sid"
is the second session, not the first. -/
theorem c7_counterexample_history_replaced :
    lookupA ((stop_recording ((start_recording [("r", ⟨"r", ["u"], 5, "sid"⟩)]
          ⟨[], []⟩ "r" 0).1) "r" 1).1).history "sid"
      = some ⟨"sid", "r", 0, some 1, [], "stopped"⟩ ∧
    lookupA ((stop_recording ((start_recording [("r", ⟨"r", ["u"], 5, "sid"⟩)]
          ((stop_recording ((start_recording [("r", ⟨"r", ["u"], 5, "sid"⟩)]
            ⟨[], []⟩ "r" 0).1) "r" 1).1) "r" 2).1) "r" 3).1).history "sid"
      = some ⟨"sid", "r", 2, some 3, [], "stopped"⟩ ∧
    (⟨"sid", "r", 0, some 1, [], "stopped"⟩ : RecordingSession)
      ≠ ⟨"sid", "r", 2, some 3, [], "stopped"⟩ := by
  refine ⟨rfl, rfl, ?_⟩
  decide

/-- Claim C7 (amended): `start_recording`, `stop_recording` and
`force_stop_recording` never remove a history key — an entry can only be
replaced in place by a later stop whose recording carries the same folder
id (see the counterexample); removal happens only in
`cleanup_old_recordings`. -/
theorem recording_history_keys_preserved (rooms : List (String × Room))
    (st : RecState) (rid reason : String) (now : Int) (k : String)
    (h : (lookupA st.history k).isSome = true) :
    (lookupA (start_recording rooms st rid now).1.history k).isSome = true ∧
    (lookupA (stop_recording st rid now).1.history k).isSome = true ∧
    (lookupA (force_stop_recording st rid reason now).1.history k).isSome = true := by
  refine ⟨?_, ?_, ?_⟩
  · cases hr : lookupA rooms rid with
    | none => simpa [start_recording, hr] using h
    | some room =>
      cases ha : lookupA st.active rid with
      | some ex => simpa [start_recording, hr, ha] using h
      | none => simpa [start_recording, hr, ha] using h
  · cases ha : lookupA st.active rid with
    | none => simpa [stop_recording, ha] using h
    | some r =>
      simp only [stop_recording, ha]
      exact lookupA_setA_isSome st.history k _ _ h
  · cases ha : lookupA st.active rid with
    | none => simpa [force_stop_recording, ha] using h
    | some r =>
      simp only [force_stop_recording, ha]
      exact lookupA_setA_isSome st.history k _ _ h

/-- Witness for `recording_history_keys_preserved` on a concrete state with
one history entry and one active recording. -/
theorem recording_history_keys_preserved_witness :
    (lookupA (start_recording [("r", ⟨"r", ["u"], 5, "sid"⟩)]
        ⟨[("r", ⟨"sid", "r", 2, none, [], "active"⟩)],
         [("h", ⟨"h", "q", 0, some 1, [], "stopped"⟩)]⟩ "r" 5).1.history "h").isSome = true ∧
    (lookupA (stop_recording
        ⟨[("r", ⟨"sid", "r", 2, none, [], "active"⟩)],
         [("h", ⟨"h", "q", 0, some 1, [], "stopped"⟩)]⟩ "r" 5).1.history "h").isSome = true ∧
    (lookupA (force_stop_recording
        ⟨[("r", ⟨"sid", "r", 2, none, [], "active"⟩)],
         [("h", ⟨"h", "q", 0, some 1, [], "stopped"⟩)]⟩ "r" "room deleted" 5).1.history
      "h").isSome = true :=
  recording_history_keys_preserved [("r", ⟨"r", ["u"], 5, "sid"⟩)]
    ⟨[("r", ⟨"sid", "r", 2, none, [], "active"⟩)],
     [("h", ⟨"h", "q", 0, some 1, [], "stopped"⟩)]⟩ "r" "room deleted" 5 "h" (by decide)

/-! ## Signaling relay (`WebRTCManager.handle_offer` / `handle_answer` /
`handle_ice_candidate`)

Each handler looks up the target session only, silently returns when it is
absent or its websocket is closed, and otherwise forwards one message to
the target.  No registry state is ever written; the outbound sends are
returned explicitly. -/

structure UserC where
  ws_closed : Bool
deriving Repr, DecidableEq

structure SentMessage where
  target : String
  type : String
  payload : Option String
  from_id : String
deriving Repr, DecidableEq

abbrev CState : Type := List (String × UserC)

/-- `WebRTCManager.handle_offer`. -/
def handle_offer (conns : CState) (uid tid : String) (sdp : Option String) :
    CState × List SentMessage :=
  match lookupA conns tid with
  | none => (conns, [])
  | some tu =>
    if tu.ws_closed then (conns, [])
    else (conns, [{ target := tid, type := "offer", payload := sdp, from_id := uid }])

/-- `WebRTCManager.handle_answer`. -/
def handle_answer (conns : CState) (uid tid : String) (sdp : Option String) :
    CState × List SentMessage :=
  match lookupA conns tid with
  | none => (conns, [])
  | some tu =>
    if tu.ws_closed then (conns, [])
    else (conns, [{ target := tid, type := "answer", payload := sdp, from_id := uid }])

/-- `WebRTCManager.handle_ice_candidate`. -/
def handle_ice_candidate (conns : CState) (uid tid : String) (candidate : Option String) :
    CState × List SentMessage :=
  match lookupA conns tid with
  | none => (conns, [])
  | some tu =>
    if tu.ws_closed then (conns, [])
    else (conns, [{ target := tid, type := "ice_candidate", payload := candidate,
                    from_id := uid }])

/-- Claim C8: relaying an offer, answer or ICE candidate to a target that
is absent or whose sink is closed returns normally, sends nothing to any
session (in particular no error to the sender), and leaves the registry
unchanged. -/
theorem relay_silent_drop (conns : CState) (uid tid : String) (d : Option String)
    (h : lookupA conns tid = none ∨
         ∃ tu, lookupA conns tid = some tu ∧ tu.ws_closed = true) :
    handle_offer conns uid tid d = (conns, []) ∧
    handle_answer conns uid tid d = (conns, []) ∧
    handle_ice_candidate conns uid tid d = (conns, []) := by
  rcases h with h | ⟨tu, h, hc⟩
  · exact ⟨by simp [handle_offer, h], by simp [handle_answer, h],
      by simp [handle_ice_candidate, h]⟩
  · exact ⟨by simp [handle_offer, h, hc], by simp [handle_answer, h, hc],
      by simp [handle_ice_candidate, h, hc]⟩

/-- Witness for `relay_silent_drop`: one absent target and one closed
target. -/
theorem relay_silent_drop_witness :
    (handle_offer [("t", ⟨true⟩)] "s" "t" (some "sdp") = ([("t", ⟨true⟩)], []) ∧
     handle_answer [("t", ⟨true⟩)] "s" "t" (some "sdp") = ([("t", ⟨true⟩)], []) ∧
     handle_ice_candidate [("t", ⟨true⟩)] "s" "t" (some "sdp") = ([("t", ⟨true⟩)], [])) ∧
    handle_offer [("t", ⟨false⟩)] "s" "missing" none = ([("t", ⟨false⟩)], []) := by
  constructor
  · exact relay_silent_drop [("t", ⟨true⟩)] "s" "t" (some "sdp")
      (Or.inr ⟨⟨true⟩, rfl, rfl⟩)
  · exact (relay_silent_drop [("t", ⟨false⟩)] "s" "missing" none (Or.inl rfl)).1

end VideoChat
